import Mathlib

/-!
Verification development for the learning core of the snake-game
reinforcement-learning agents (file `agent.py`).

The embedding below translates the Python/numpy/torch code into Lean:

* Float arrays are modelled by the type `FV`, an exact value model of IEEE
  floating point: a finite value (modelled exactly by a rational), `+inf`,
  `-inf` and `nan`, with the IEEE special-value propagation rules that the
  code's correctness actually depends on (`-inf * 0 = nan`,
  `x + nan = nan`, ...).  Rounding of finite arithmetic is not modelled;
  none of the properties proved here depend on rounding, only on the exact
  algebra of `0`, `1` and the special values.

* Numpy arrays live in an explicit heap (`Store`, a list of flat buffers)
  and are accessed through `View`s (buffer id, shape, flat index map), so
  that aliasing, views and in-place mutation are observable.  Operations
  that allocate push a fresh buffer; operations that only produce a view
  (reshape, rollaxis) leave the heap untouched.

* Python reference semantics for `state_dict` / dict item assignment are
  modelled by keeping module parameters as heap addresses: `state_dict()`
  returns a fresh association list of (name, address) pairs, and writing
  into that list produces a new local list without touching either the heap
  or the module's own parameter registry, exactly as in PyTorch, where
  `d[k] = t` rebinds a dict entry and does not write any tensor.

* The convolutional forward computation itself (`DeepQCNN.forward`) runs
  inside torch and is irrelevant to every claim below; it enters the
  development as an abstract function argument `net` from parameter
  tensors and a prepared input to per-row outputs.
-/

set_option autoImplicit false

namespace Agents

/-! ### An exact value model of IEEE floating-point scalars -/

/-- Exact model of one IEEE floating-point scalar: a finite value (kept
exactly as a rational), plus infinity, minus infinity, or NaN. -/
inductive FV where
  | fin (q : ℚ)
  | pinf
  | ninf
  | nan
  deriving DecidableEq, Repr

namespace FV

/-- IEEE addition on `FV`: NaN propagates, opposite infinities give NaN. -/
def add : FV → FV → FV
  | nan, _ => nan
  | _, nan => nan
  | pinf, ninf => nan
  | ninf, pinf => nan
  | pinf, _ => pinf
  | _, pinf => pinf
  | ninf, _ => ninf
  | _, ninf => ninf
  | fin a, fin b => fin (a + b)

/-- IEEE negation on `FV`. -/
def neg : FV → FV
  | nan => nan
  | pinf => ninf
  | ninf => pinf
  | fin a => fin (-a)

/-- IEEE subtraction on `FV`. -/
def sub (x y : FV) : FV := add x (neg y)

/-- IEEE multiplication on `FV`: NaN propagates, `0 * (±inf) = NaN`,
infinities multiply by sign. -/
def mul : FV → FV → FV
  | nan, _ => nan
  | _, nan => nan
  | pinf, pinf => pinf
  | pinf, ninf => ninf
  | ninf, pinf => ninf
  | ninf, ninf => pinf
  | pinf, fin b => if b > 0 then pinf else if b < 0 then ninf else nan
  | ninf, fin b => if b > 0 then ninf else if b < 0 then pinf else nan
  | fin a, pinf => if a > 0 then pinf else if a < 0 then ninf else nan
  | fin a, ninf => if a > 0 then ninf else if a < 0 then pinf else nan
  | fin a, fin b => fin (a * b)

/-- Division of an `FV` by a positive rational scalar (the only scalar
divisions the code performs are by `4.0` and by a positive batch count). -/
def divQ (x : FV) (q : ℚ) : FV :=
  match x with
  | nan => nan
  | pinf => pinf
  | ninf => ninf
  | fin a => fin (a / q)

/-- IEEE absolute value on `FV`. -/
def abs : FV → FV
  | nan => nan
  | pinf => pinf
  | ninf => pinf
  | fin a => fin |a|

/-- IEEE strict comparison on `FV`: any comparison with NaN is false. -/
def lt : FV → FV → Bool
  | nan, _ => false
  | _, nan => false
  | pinf, _ => false
  | ninf, ninf => false
  | ninf, _ => true
  | fin _, pinf => true
  | fin _, ninf => false
  | fin a, fin b => decide (a < b)

/-- Pairwise maximum with numpy `np.max` semantics: NaN propagates, and
otherwise `-inf < finite < +inf`. -/
def max2 : FV → FV → FV
  | nan, _ => nan
  | _, nan => nan
  | pinf, _ => pinf
  | _, pinf => pinf
  | ninf, y => y
  | x, ninf => x
  | fin a, fin b => fin (max a b)

end FV

/-! ### `_point_to_row_col` and `_row_col_to_point` (`Agent`) -/

/-- Embedding of `Agent._point_to_row_col`: flat index to (row, col) via
integer division and remainder by the board size. -/
def point_to_row_col (boardSize point : ℕ) : ℕ × ℕ :=
  (point / boardSize, point % boardSize)

/-- Embedding of `Agent._row_col_to_point`: (row, col) to flat index. -/
def row_col_to_point (boardSize row col : ℕ) : ℕ :=
  row * boardSize + col

/-! ### Lines 556-564 of `agent.py`: the DQN regression target

The network outputs for one transition are a row of finite floats
(modelled exactly by rationals); `legal_moves` is a row of 0/1 floats.
`np.where(legal_moves == 1, next_model_outputs, -np.inf)` introduces
`-inf` at illegal actions, so the per-row reduction and the arithmetic
after it run in the IEEE value model `FV`. -/

/-- Row of an elementwise `np.where(mask == 1, outs, -np.inf)` over aligned
(output, mask) pairs. -/
def maskRow (l : List (ℚ × ℚ)) : List FV :=
  l.map (fun p => if p.2 = 1 then FV.fin p.1 else FV.ninf)

/-- Raw outputs at the positions the mask marks legal (`mask == 1`). -/
def legalQ (l : List (ℚ × ℚ)) : List ℚ :=
  (l.filter (fun p => decide (p.2 = 1))).map (fun p => p.1)

/-- Embedding of `np.where(legal_moves == 1, next_model_outputs, -np.inf)`
for one row of the batch. -/
def whereLegal (outs legal : List ℚ) : List FV :=
  maskRow (outs.zip legal)

/-- Embedding of numpy `np.max` over one row (numpy raises on an empty
reduction; the agent always has `n_actions ≥ 1` columns, so the empty case
is unreachable and mapped to NaN). -/
def npMaxRow : List FV → FV
  | [] => FV.nan
  | x :: xs => xs.foldl FV.max2 x

/-- Per-row bootstrap value of line 559:
`np.max(np.where(legal_moves == 1, next_model_outputs, -np.inf), axis=1)`. -/
def maskedRowMax (outs legal : List ℚ) : FV :=
  npMaxRow (whereLegal outs legal)

/-- Embedding of lines 558-560 for one transition:
`discounted_reward = r + (gamma * max(where(legal == 1, next_q, -inf))) * (1 - done)`,
computed with IEEE special-value propagation. -/
def discountedReward (gamma r : ℚ) (outs legal : List ℚ) (done : ℚ) : FV :=
  FV.add (FV.fin r)
    (FV.mul (FV.mul (FV.fin gamma) (maskedRowMax outs legal))
      (FV.fin (1 - done)))

/-- Embedding of line 564 for one row of the batch:
`target = (1 - a) * target + a * discounted_reward`, where the first
`target` is the current model's Q-row and `a` the action row. -/
def buildTargetRow (a q : List ℚ) (dr : FV) : List FV :=
  (a.zip q).map
    (fun p => FV.add (FV.mul (FV.fin (1 - p.1)) (FV.fin p.2)) (FV.mul (FV.fin p.1) dr))

/-! ### A heap model of numpy arrays

Numpy arrays are flat buffers in a heap; views carry a buffer id, a shape
and an index map from row-major logical indices to buffer offsets (the
role strides play in numpy).  Allocating operations push a fresh buffer;
view-producing operations (reshape, rollaxis) touch no buffer, which is
what makes mutation and aliasing observable in the embedding. -/

/-- Heap of flat numpy buffers; a buffer id is an index into the list. -/
structure Store where
  bufs : List (List FV)

/-- Append a freshly allocated buffer. -/
def Store.push (σ : Store) (d : List FV) : Store := ⟨σ.bufs ++ [d]⟩

/-- Read one cell of one buffer (out-of-range reads return a default; the
development only relies on in-range reads). -/
def Store.read (σ : Store) (b i : ℕ) : FV := (σ.bufs.getD b []).getD i (FV.fin 0)

/-- A numpy ndarray view: buffer id, shape, and the map sending a
row-major logical index to a buffer offset. -/
structure View where
  buf : ℕ
  shape : List ℕ
  map : ℕ → ℕ

/-- Number of elements a shape describes. -/
def prodShape (sh : List ℕ) : ℕ := sh.foldl (fun a b => a * b) 1

/-- Read logical element `i` (row-major) of a view. -/
def readV (σ : Store) (v : View) (i : ℕ) : FV := σ.read v.buf (v.map i)

/-- Materialized row-major contents of a view. -/
def materialize (σ : Store) (v : View) : List FV :=
  (List.range (prodShape v.shape)).map (readV σ v)

/-- Embedding of `board.reshape(newShape)`: reshaping preserves the
row-major element sequence, so the logical index map is unchanged (numpy
returns a view on a contiguous input and copies otherwise; either way no
buffer is written and logical contents agree). -/
def npReshape (v : View) (sh : List ℕ) : View := ⟨v.buf, sh, v.map⟩

/-- Embedding of `np.rollaxis(board, 3, 1)` on a 4-d view: logical index
`(b, f, r, c)` of the result maps to logical index `(b, r, c, f)` of the
input. Produces a view; no buffer is written. -/
def npRollaxis31 (v : View) : View :=
  match v.shape with
  | [b, s1, s2, n] =>
      ⟨v.buf, [b, n, s1, s2],
        fun i =>
          let c := i % s2
          let t1 := i / s2
          let r := t1 % s1
          let t2 := t1 / s1
          let f := t2 % n
          let bi := t2 / n
          v.map (((bi * s1 + r) * s2 + c) * n + f)⟩
  | _ => v

/-- Embedding of `board.copy()`: materializes the view into a fresh
contiguous buffer. -/
def npCopy (σ : Store) (v : View) : Store × View :=
  (σ.push (materialize σ v), ⟨σ.bufs.length, v.shape, fun i => i⟩)

/-- Embedding of `board.astype(np.float32)`: a fresh array with the same
contents (the cast is the identity in the exact value model; the board
holds small integers, exactly representable in float32). -/
def npAstype (σ : Store) (v : View) : Store × View :=
  (σ.push (materialize σ v), ⟨σ.bufs.length, v.shape, fun i => i⟩)

/-- Embedding of `arr / 4.0`: a fresh array holding each element divided
by 4. -/
def npDiv4 (σ : Store) (v : View) : Store × View :=
  (σ.push ((materialize σ v).map (fun x => FV.divQ x 4)),
   ⟨σ.bufs.length, v.shape, fun i => i⟩)

/-- Embedding of `DeepQLearningAgent._normalize_board` (lines 396-411):
`return board.astype(np.float32) / 4.0`. -/
def normalize_board (σ : Store) (v : View) : Store × View :=
  let r := npAstype σ v
  npDiv4 r.1 r.2

/-- View-level part of `_prepare_input`: the rank-3 promotion
`board.reshape((1,) + self._input_shape)` followed by
`np.rollaxis(board, 3, 1)`; pure view bookkeeping, no buffer touched. -/
def prepared_view (inputShape : List ℕ) (v : View) : View :=
  npRollaxis31 (if v.shape.length = 3 then npReshape v (1 :: inputShape) else v)

/-- Embedding of `DeepQLearningAgent._prepare_input` (lines 352-372):
promote a rank-3 board to a batch of one, roll the frame axis to
position 1, then `self._normalize_board(board.copy())` and a final
`return board.copy()`. `inputShape` is the agent's `_input_shape`
`(board_size, board_size, n_frames)`. -/
def prepare_input (inputShape : List ℕ) (σ : Store) (v : View) : Store × View :=
  let v2 := prepared_view inputShape v
  let r3 := npCopy σ v2
  let r4 := normalize_board r3.1 r3.2
  npCopy r4.1 r4.2

/-! ### PyTorch modules, state dicts and the target-network copy

A torch module keeps its parameter tensors by reference; `state_dict()`
returns a fresh `OrderedDict` whose values reference those same tensors.
Item assignment `d[k] = t` rebinds an entry of the dict object and writes
no tensor; only `load_state_dict` copies values into a module's
parameters.  The embedding keeps parameters as heap addresses into the
same `Store` that numpy buffers live in, which makes these distinctions
observable. -/

/-- A torch module's parameter registry: parameter names to the heap
addresses of the parameter tensors. -/
structure TModule where
  params : List (String × ℕ)

/-- Embedding of `module.state_dict()`: a fresh dict object whose entries
alias the module's parameter tensors. -/
def state_dict (m : TModule) : List (String × ℕ) := m.params

/-- Python dict item assignment `d[k] = a`: replace the entry if the key
is present, append it otherwise. The dict value is local; nothing in the
heap and no module registry changes. -/
def dictSet (d : List (String × ℕ)) (k : String) (a : ℕ) : List (String × ℕ) :=
  if d.any (fun kv => kv.1 == k) then d.map (fun kv => if kv.1 = k then (k, a) else kv)
  else d ++ [(k, a)]

/-- Parameter tensors of a module, by name, as stored values. -/
def paramTensors (σ : Store) (m : TModule) : List (String × List FV) :=
  m.params.map (fun kv => (kv.1, σ.bufs.getD kv.2 []))

/-- State of a `DeepQLearningAgent` as far as the claims are concerned:
the tensor heap, the live and target modules, the target-network flag,
and the addresses of the parameter tensors that `self.optimizer` (the
RMSprop instance assigned in `_agent_model`) is bound to. -/
structure DQNState where
  store : Store
  model : TModule
  target_net : TModule
  use_target_net : Bool
  optimizerParams : List ℕ

/-- Embedding of `DeepQLearningAgent.update_target_net` (lines 578-588):
read both state dicts and assign every entry of the live model's dict
into the local dict `t_dict`. The assignments rebind entries of the local
dict object only; there is no `load_state_dict` call and no tensor write,
so the agent state is returned unchanged. -/
def update_target_net (ag : DQNState) : DQNState :=
  if ag.use_target_net then
    let m_dict := state_dict ag.model
    let t_dict := state_dict ag.target_net
    let t_dict := m_dict.foldl (fun d kv => dictSet d kv.1 kv.2) t_dict
    let _ := t_dict
    ag
  else ag

/-- State of an `AdvantageActorCriticAgent` (fields used by its
`update_target_net` override). -/
structure AACState where
  store : Store
  model : TModule
  full_model : TModule
  values_model : TModule
  target_net : TModule
  use_target_net : Bool

/-- Embedding of `AdvantageActorCriticAgent.update_target_net` (lines
723-732): the same local-dict rebinding as the DQN version; no tensor
write, agent unchanged. -/
def AAC_update_target_net (ag : AACState) : AACState :=
  if ag.use_target_net then
    let model_dict := state_dict ag.model
    let target_dict := state_dict ag.target_net
    let target_dict := model_dict.foldl (fun d kv => dictSet d kv.1 kv.2) target_dict
    let _ := target_dict
    ag
  else ag

/-! ### Model construction and the optimizer binding (lines 344-350, 432-443) -/

/-- Allocate the given named initial tensors (the random initialization of
a fresh `DeepQCNN`, abstracted as data) as fresh buffers. -/
def allocParams : Store → List (String × List FV) → Store × List (String × ℕ)
  | σ, [] => (σ, [])
  | σ, (k, t) :: rest =>
      let r := allocParams (σ.push t) rest
      (r.1, (k, σ.bufs.length) :: r.2)

/-- Embedding of `_agent_model` (lines 432-443): build a fresh model and
rebind `self.optimizer` to an RMSprop over THIS model's parameters.
Returns the module and the new optimizer's parameter addresses. -/
def agent_model (σ : Store) (init : List (String × List FV)) :
    Store × TModule × List ℕ :=
  let r := allocParams σ init
  (r.1, ⟨r.2⟩, r.2.map (fun kv => kv.2))

/-- Embedding of `reset_models` (lines 344-350): create the live model
(which sets `self.optimizer`); when the target-network flag is on, create
the target net — whose `_agent_model` call overwrites `self.optimizer`
with one bound to the target net's parameters — then call
`update_target_net`. `init1`, `init2` are the two models' random
initializations. -/
def reset_models (σ : Store) (init1 init2 : List (String × List FV))
    (useTarget : Bool) : DQNState :=
  let r1 := agent_model σ init1
  if useTarget then
    let r2 := agent_model r1.1 init2
    update_target_net ⟨r2.1, r1.2.1, r2.2.1, true, r2.2.2⟩
  else ⟨r1.1, r1.2.1, ⟨[]⟩, false, r1.2.2⟩

/-! ### The DQN training step (lines 544-575) -/

/-- A torch tensor as autograd sees it: a payload plus whether the tensor
is connected to the computation graph. -/
structure TorchT (α : Type) where
  val : α
  requires_grad : Bool

/-- Embedding of `torch.Tensor(x)` on a numpy array: a leaf tensor that
does not require grad. -/
def torchTensorNp {α : Type} (x : α) : TorchT α := ⟨x, false⟩

/-- Embedding of `torch.Tensor(t)` on an existing tensor: copy
construction, equivalent to `t.clone().detach()`; the result is
disconnected from the autograd graph. -/
def torchTensorCopy {α : Type} (t : TorchT α) : TorchT α := ⟨t.val, false⟩

/-- Embedding of `np.sign`. -/
def signQ (x : ℚ) : ℚ := if x < 0 then -1 else if x = 0 then 0 else 1

/-- Embedding of `huber_loss` (lines 19-43) on scalars:
quadratic `0.5 * e^2` when `|e| < delta`, else `delta * (|e| - 0.5*delta)`,
with IEEE comparison semantics. -/
def huber_loss_fv (delta : ℚ) (t p : FV) : FV :=
  let error := FV.sub t p
  let quad_error := FV.mul (FV.fin (1/2)) (FV.mul error error)
  let lin_error := FV.mul (FV.fin delta)
    (FV.sub (FV.abs error) (FV.mul (FV.fin (1/2)) (FV.fin delta)))
  if FV.lt (FV.abs error) (FV.fin delta) then quad_error else lin_error

/-- Sum with numpy/torch reduction semantics over the exact value model. -/
def fvSum (l : List FV) : FV := l.foldl FV.add (FV.fin 0)

/-- Embedding of `torch.mean`. -/
def fvMean (l : List FV) : FV := FV.divQ (fvSum l) (l.length : ℚ)

/-- Embedding of `mean_huber_loss` (lines 46-63) on flat element lists. -/
def mean_huber_loss_fv (delta : ℚ) (t p : List FV) : FV :=
  fvMean (List.zipWith (huber_loss_fv delta) t p)

/-- `mean_huber_loss` at the tensor level: torch ops propagate the
graph-connection flag from their operands. -/
def mean_huber_loss_t (delta : ℚ) (a b : TorchT (List FV)) : TorchT FV :=
  ⟨mean_huber_loss_fv delta a.val b.val, a.requires_grad || b.requires_grad⟩

/-- Embedding of `loss.backward()`: raises
`RuntimeError: element 0 of tensors does not require grad and does not
have a grad_fn` when the loss tensor is disconnected from the graph. -/
def backward (t : TorchT FV) : Except String Unit :=
  if t.requires_grad then Except.ok ()
  else Except.error "element 0 of tensors does not require grad and does not have a grad_fn"

/-- Flatten a batch of finite output rows into torch elements. -/
def toFVRows (rows : List (List ℚ)) : List FV := rows.flatten.map FV.fin

/-- Forward pass `model(x)` of a module with learnable parameters: the
output is connected to the graph. `net` abstracts the `DeepQCNN`
convolutional computation, from parameter tensors and a prepared input to
per-row finite outputs. -/
def module_forward (net : List (List FV) → List FV → List (List ℚ))
    (σ : Store) (m : TModule) (x : List FV) : TorchT (List (List ℚ)) :=
  ⟨net (m.params.map (fun kv => σ.bufs.getD kv.2 [])) x, true⟩

/-- Embedding of `_get_model_outputs` (lines 374-394): prepare the input,
run the chosen model, and return the `.detach().numpy()` rows. -/
def get_model_outputs (net : List (List FV) → List FV → List (List ℚ))
    (ish : List ℕ) (σ : Store) (board : View) (m : TModule) :
    Store × List (List ℚ) :=
  let r := prepare_input ish σ board
  (r.1, (module_forward net r.1 m (materialize r.1 r.2)).val)

/-- Per-transition discounted rewards of lines 558-560 over a batch. -/
def discountedRows (gamma : ℚ) (r : List ℚ) (outs legal : List (List ℚ))
    (done : List ℚ) : List FV :=
  (((r.zip outs).zip legal).zip done).map
    (fun x => discountedReward gamma x.1.1.1 x.1.1.2 x.1.2 x.2)

/-- Embedding of `DeepQLearningAgent.train_agent` (lines 544-575) given
the six sampled arrays (`ReplayBufferNumpy.sample` is defined in
`replay_buffer.py`, outside this file; per the spec it returns six
aligned arrays when the buffer holds at least `batch_size` transitions).
`upd` abstracts the RMSprop update rule of `self.optimizer.step()`, which
is bound to the addresses in `ag.optimizerParams`.  A fresh local RMSprop
over the live model's parameters is constructed at line 547 and never
used.  Returns the Python result (the scalar loss, or the message of the
exception that escaped) together with the agent state at return/raise
time. -/
def train_agent (net : List (List FV) → List FV → List (List ℚ))
    (upd : ℕ → List FV → List FV) (gamma : ℚ) (ish : List ℕ) (ag : DQNState)
    (s next_s : View) (a : List (List ℚ)) (r : List ℚ) (done : List ℚ)
    (legal : List (List ℚ)) (reward_clip : Bool) :
    Except String FV × DQNState :=
  let r := if reward_clip then r.map signQ else r
  let current_model := if ag.use_target_net then ag.target_net else ag.model
  let ro1 := get_model_outputs net ish ag.store next_s current_model
  let discounted_reward := discountedRows gamma r ro1.2 legal done
  let ro2 := get_model_outputs net ish ro1.1 s ag.model
  let target := (a.zip (ro2.2.zip discounted_reward)).map
    (fun x => buildTargetRow x.1 x.2.1 x.2.2)
  let rp := prepare_input ish ro2.1 s
  let model_out := module_forward net rp.1 ag.model (materialize rp.1 rp.2)
  let loss := mean_huber_loss_t 1
    (torchTensorCopy ⟨toFVRows model_out.val, model_out.requires_grad⟩)
    (torchTensorNp target.flatten)
  match backward loss with
  | Except.error e => (Except.error e, { ag with store := rp.1 })
  | Except.ok _ =>
      let σ4 := ag.optimizerParams.foldl
        (fun τ ad => Store.mk (τ.bufs.set ad (upd ad (τ.bufs.getD ad [])))) rp.1
      (Except.ok loss.val, { ag with store := σ4 })

/-! ### Persistence (lines 483-533) -/

/-- Format an iteration index as `"{:04d}".format(i)`. -/
def fmt04 (n : ℕ) : String :=
  let s := toString n
  String.mk (List.replicate (4 - s.length) '0') ++ s

/-- A file system: path to saved state-dict contents. -/
def FileSystem : Type := List (String × List (String × List FV))

/-- Embedding of `torch.load(path)`: the file's contents, or a
`FileNotFoundError` (None) when the path does not exist. -/
def torch_load (fs : FileSystem) (path : String) :
    Option (List (String × List FV)) :=
  (fs.find? (fun e => e.1 == path)).map (fun e => e.2)

/-- Embedding of `module.load_state_dict(sd)`: copy each entry's values
into the module's same-named parameter tensor, in place. -/
def load_state_dict (σ : Store) (m : TModule) (sd : List (String × List FV)) :
    Store :=
  sd.foldl
    (fun τ kv =>
      match m.params.find? (fun p => p.1 == kv.1) with
      | some p => ⟨τ.bufs.set p.2 kv.2⟩
      | none => τ)
    σ

/-- Embedding of `DeepQLearningAgent.load_model` (lines 509-533): load the
live model's file into the live model, then, when the target-network flag
is on, load the target file into the target net.  A `FileNotFoundError`
from `torch.load` propagates (first component); the second component is
the agent state at the moment control returns or the exception escapes —
Python leaves the object exactly as it was at the raise point. -/
def load_model (fs : FileSystem) (ag : DQNState) (file_path : String)
    (iteration : Option ℕ) : Option String × DQNState :=
  let it := iteration.getD 0
  match torch_load fs (file_path ++ "/model_" ++ fmt04 it ++ ".pt") with
  | none => (some "FileNotFoundError", ag)
  | some sd =>
    let ag1 := { ag with store := load_state_dict ag.store ag.model sd }
    if ag1.use_target_net then
      match torch_load fs (file_path ++ "/model_" ++ fmt04 it ++ "_target.pt") with
      | none => (some "FileNotFoundError", ag1)
      | some sd2 =>
          (none, { ag1 with store := load_state_dict ag1.store ag1.target_net sd2 })
    else (none, ag1)

/-- Embedding of `AdvantageActorCriticAgent.load_model` (lines 702-721):
load, in order, the live model's file, the full model's `_full` file and —
when the target-network flag is on — the `_values` and `_target` files,
each into its module.  As for the DQN version, a `FileNotFoundError` from
`torch.load` propagates and the second component is the object state at
the moment the exception escapes. -/
def AAC_load_model (fs : FileSystem) (ag : AACState) (file_path : String)
    (iteration : Option ℕ) : Option String × AACState :=
  let it := iteration.getD 0
  match torch_load fs (file_path ++ "/model_" ++ fmt04 it ++ ".pt") with
  | none => (some "FileNotFoundError", ag)
  | some sd =>
    let ag1 := { ag with store := load_state_dict ag.store ag.model sd }
    match torch_load fs (file_path ++ "/model_" ++ fmt04 it ++ "_full.pt") with
    | none => (some "FileNotFoundError", ag1)
    | some sd2 =>
      let ag2 := { ag1 with store := load_state_dict ag1.store ag1.full_model sd2 }
      if ag2.use_target_net then
        match torch_load fs (file_path ++ "/model_" ++ fmt04 it ++ "_values.pt") with
        | none => (some "FileNotFoundError", ag2)
        | some sd3 =>
          let ag3 := { ag2 with store := load_state_dict ag2.store ag2.values_model sd3 }
          match torch_load fs (file_path ++ "/model_" ++ fmt04 it ++ "_target.pt") with
          | none => (some "FileNotFoundError", ag3)
          | some sd4 =>
            (none, { ag3 with store := load_state_dict ag3.store ag3.target_net sd4 })
      else (none, ag2)

/-! ### A2C reward normalization (lines 769-775) -/

/-- Mean of a list of reals (`np.mean`). -/
noncomputable def listMean (l : List ℝ) : ℝ := l.sum / l.length

/-- Population variance of a list of reals (`np.var`, `ddof = 0`). -/
noncomputable def listVar (l : List ℝ) : ℝ :=
  (l.map (fun x => (x - listMean l) ^ 2)).sum / l.length

/-- Embedding of `np.std`: square root of the population variance. -/
noncomputable def npStd (l : List ℝ) : ℝ := Real.sqrt (listVar l)

/-- Embedding of lines 770-775 of `AdvantageActorCriticAgent.train_agent`:
if every reward equals the first one (`(r == r[0][0]).sum() == r.shape[0]`,
all of the batch column's entries equal to its first entry), set
`r -= r`; otherwise `r = (r - np.mean(r)) / np.std(r)`.  The sampled
rewards are finite floats, modelled exactly by rationals; the normalized
result lives in `ℝ` because `np.std` takes a square root. -/
noncomputable def normalize_rewards (r : List ℚ) : List ℝ :=
  if (r.map (fun x => if x = r.headI then (1 : ℕ) else 0)).sum = r.length then
    r.map (fun x : ℚ => (x : ℝ) - (x : ℝ))
  else
    let rr : List ℝ := r.map (fun x : ℚ => (x : ℝ))
    rr.map (fun x => (x - listMean rr) / npStd rr)

end Agents

namespace Agents

/-! ### Theorems -/

/-- Unfolding lemma: a masked row of a cons. -/
theorem maskRow_cons (p : ℚ × ℚ) (t : List (ℚ × ℚ)) :
    maskRow (p :: t) = (if p.2 = 1 then FV.fin p.1 else FV.ninf) :: maskRow t := rfl

/-- Unfolding lemma: `legalQ` of a cons whose mask entry is 1. -/
theorem legalQ_cons_pos (p : ℚ × ℚ) (t : List (ℚ × ℚ)) (h : p.2 = 1) :
    legalQ (p :: t) = p.1 :: legalQ t := by
  simp [legalQ, List.filter_cons, h]

/-- Unfolding lemma: `legalQ` of a cons whose mask entry is not 1. -/
theorem legalQ_cons_neg (p : ℚ × ℚ) (t : List (ℚ × ℚ)) (h : ¬ p.2 = 1) :
    legalQ (p :: t) = legalQ t := by
  simp [legalQ, List.filter_cons, h]

/-- Reduction of a masked row, folded from a finite accumulator: legal
entries fold through `max`, the `-inf` entries are absorbed. -/
theorem foldl_max2_fin (l : List (ℚ × ℚ)) (a : ℚ) :
    (maskRow l).foldl FV.max2 (FV.fin a) = FV.fin ((legalQ l).foldl max a) := by
  induction l generalizing a with
  | nil => rfl
  | cons p t ih =>
    by_cases hp : p.2 = 1
    · rw [maskRow_cons, if_pos hp, List.foldl_cons,
        show FV.max2 (FV.fin a) (FV.fin p.1) = FV.fin (max a p.1) from rfl,
        ih, legalQ_cons_pos p t hp, List.foldl_cons]
    · rw [maskRow_cons, if_neg hp, List.foldl_cons,
        show FV.max2 (FV.fin a) FV.ninf = FV.fin a from rfl,
        ih, legalQ_cons_neg p t hp]

/-- Reduction of a masked row folded from `-inf`: the result is `-inf`
when no entry is legal, and the maximum of the legal entries otherwise. -/
theorem foldl_max2_ninf (l : List (ℚ × ℚ)) :
    (maskRow l).foldl FV.max2 FV.ninf =
      (match legalQ l with
       | [] => FV.ninf
       | q :: qs => FV.fin (qs.foldl max q)) := by
  induction l with
  | nil => rfl
  | cons p t ih =>
    by_cases hp : p.2 = 1
    · rw [maskRow_cons, if_pos hp, List.foldl_cons,
        show FV.max2 FV.ninf (FV.fin p.1) = FV.fin p.1 from rfl,
        foldl_max2_fin, legalQ_cons_pos p t hp]
    · rw [maskRow_cons, if_neg hp, List.foldl_cons,
        show FV.max2 FV.ninf FV.ninf = FV.ninf from rfl,
        ih, legalQ_cons_neg p t hp]

/-- Value of `np.max` on a nonempty masked row. -/
theorem npMaxRow_maskRow (p : ℚ × ℚ) (t : List (ℚ × ℚ)) :
    npMaxRow (maskRow (p :: t)) =
      (match legalQ (p :: t) with
       | [] => FV.ninf
       | q :: qs => FV.fin (qs.foldl max q)) := by
  by_cases hp : p.2 = 1
  · rw [maskRow_cons, if_pos hp]
    show (maskRow t).foldl FV.max2 (FV.fin p.1) = _
    rw [foldl_max2_fin, legalQ_cons_pos p t hp]
  · rw [maskRow_cons, if_neg hp]
    show (maskRow t).foldl FV.max2 FV.ninf = _
    rw [foldl_max2_ninf, legalQ_cons_neg p t hp]

/-- A left fold of `max` lands on the seed or on a list element. -/
theorem foldl_max_mem (qs : List ℚ) (q : ℚ) :
    qs.foldl max q = q ∨ qs.foldl max q ∈ qs := by
  induction qs generalizing q with
  | nil => exact Or.inl rfl
  | cons b t ih =>
    simp only [List.foldl_cons]
    rcases ih (max q b) with h | h
    · rcases max_choice q b with hm | hm
      · exact Or.inl (by rw [h, hm])
      · exact Or.inr (by rw [h, hm]; exact List.mem_cons_self _ _)
    · exact Or.inr (List.mem_cons_of_mem _ h)

/-- A left fold of `max` bounds the seed and every list element. -/
theorem le_foldl_max (qs : List ℚ) (q : ℚ) :
    q ≤ qs.foldl max q ∧ ∀ x ∈ qs, x ≤ qs.foldl max q := by
  induction qs generalizing q with
  | nil => exact ⟨le_refl q, by simp⟩
  | cons b t ih =>
    obtain ⟨h1, h2⟩ := ih (max q b)
    simp only [List.foldl_cons]
    refine ⟨le_trans (le_max_left q b) h1, ?_⟩
    intro x hx
    rcases List.mem_cons.mp hx with rfl | hx
    · exact le_trans (le_max_right q x) h1
    · exact h2 x hx

/-- Membership in `legalQ` of a zipped row, phrased by index. -/
theorem mem_legalQ (outs legal : List ℚ) (x : ℚ) :
    x ∈ legalQ (outs.zip legal) ↔
      ∃ i, ∃ h1 : i < outs.length, ∃ h2 : i < legal.length,
        legal.get ⟨i, h2⟩ = 1 ∧ outs.get ⟨i, h1⟩ = x := by
  unfold legalQ
  simp only [List.mem_map, List.mem_filter, decide_eq_true_eq]
  constructor
  · rintro ⟨p, ⟨hpz, hp1⟩, rfl⟩
    obtain ⟨i, hget⟩ := List.mem_iff_get.mp hpz
    have hi1 : (i : ℕ) < outs.length :=
      lt_of_lt_of_le i.isLt (by rw [List.length_zip]; exact min_le_left _ _)
    have hi2 : (i : ℕ) < legal.length :=
      lt_of_lt_of_le i.isLt (by rw [List.length_zip]; exact min_le_right _ _)
    have hz : (outs.zip legal).get i = (outs.get ⟨i, hi1⟩, legal.get ⟨i, hi2⟩) := by
      simp [List.get_eq_getElem, List.getElem_zip]
    have hp' : p = (outs.get ⟨i, hi1⟩, legal.get ⟨i, hi2⟩) := by rw [← hget, hz]
    refine ⟨i, hi1, hi2, ?_, ?_⟩
    · rw [hp'] at hp1; exact hp1
    · rw [hp']
  · rintro ⟨i, h1, h2, hleg, rfl⟩
    have hi : i < (outs.zip legal).length := by rw [List.length_zip]; omega
    refine ⟨(outs.get ⟨i, h1⟩, legal.get ⟨i, h2⟩), ⟨?_, hleg⟩, rfl⟩
    have hz : (outs.zip legal).get ⟨i, hi⟩ = (outs.get ⟨i, h1⟩, legal.get ⟨i, h2⟩) := by
      simp [List.get_eq_getElem, List.getElem_zip]
    rw [← hz]
    exact List.get_mem _ _ _

/-- Reading a list built by mapping over a range, in range. -/
theorem getD_range_map (k : ℕ) (f : ℕ → FV) (i : ℕ) (h : i < k) :
    ((List.range k).map f).getD i (FV.fin 0) = f i := by
  rw [List.getD_eq_getElem?_getD, List.getElem?_map, List.getElem?_range h]
  rfl

/-- Buffers below the allocation point are unchanged by a push. -/
theorem getD_bufs_push (σ : Store) (d : List FV) (b : ℕ) (h : b < σ.bufs.length) :
    (σ.push d).bufs.getD b [] = σ.bufs.getD b [] := by
  show (σ.bufs ++ [d]).getD b [] = σ.bufs.getD b []
  rw [List.getD_eq_getElem?_getD, List.getD_eq_getElem?_getD, List.getElem?_append,
    if_pos h]

/-- Reading an existing buffer is unchanged by a push. -/
theorem read_push_lt (σ : Store) (d : List FV) (b i : ℕ) (h : b < σ.bufs.length) :
    (σ.push d).read b i = σ.read b i := by
  unfold Store.read
  rw [getD_bufs_push σ d b h]

/-- Reading the buffer a push just allocated. -/
theorem read_push_self (σ : Store) (d : List FV) (i : ℕ) :
    (σ.push d).read σ.bufs.length i = d.getD i (FV.fin 0) := by
  have h1 : (σ.push d).bufs.getD σ.bufs.length [] = d := by
    unfold Store.push
    rw [List.getD_eq_getElem?_getD, List.getElem?_append_right (le_refl _)]
    simp
  unfold Store.read
  rw [h1]

/-- In-range reads of a fresh copy reproduce the source view. -/
theorem readV_npCopy (σ : Store) (v : View) (i : ℕ) (h : i < prodShape v.shape) :
    readV (npCopy σ v).1 (npCopy σ v).2 i = readV σ v i := by
  show (σ.push (materialize σ v)).read σ.bufs.length i = readV σ v i
  rw [read_push_self]
  unfold materialize
  rw [getD_range_map _ _ _ h]

/-- In-range reads of an `astype` result reproduce the source view. -/
theorem readV_npAstype (σ : Store) (v : View) (i : ℕ) (h : i < prodShape v.shape) :
    readV (npAstype σ v).1 (npAstype σ v).2 i = readV σ v i := by
  show (σ.push (materialize σ v)).read σ.bufs.length i = readV σ v i
  rw [read_push_self]
  unfold materialize
  rw [getD_range_map _ _ _ h]

/-- In-range reads of a `/ 4.0` result divide the source by 4. -/
theorem readV_npDiv4 (σ : Store) (v : View) (i : ℕ) (h : i < prodShape v.shape) :
    readV (npDiv4 σ v).1 (npDiv4 σ v).2 i = FV.divQ (readV σ v i) 4 := by
  show (σ.push ((materialize σ v).map (fun x => FV.divQ x 4))).read σ.bufs.length i = _
  rw [read_push_self]
  unfold materialize
  rw [List.map_map, getD_range_map _ _ _ h]
  rfl

/-- In-range reads of `_normalize_board` divide the source by 4. -/
theorem readV_normalize_board (σ : Store) (v : View) (i : ℕ)
    (h : i < prodShape v.shape) :
    readV (normalize_board σ v).1 (normalize_board σ v).2 i =
      FV.divQ (readV σ v i) 4 := by
  rw [show normalize_board σ v = npDiv4 (npAstype σ v).1 (npAstype σ v).2 from rfl,
    readV_npDiv4 (npAstype σ v).1 (npAstype σ v).2 i h, readV_npAstype σ v i h]

/-- In-range reads of `_prepare_input` divide the rolled view by 4. -/
theorem readV_prepare_input (ish : List ℕ) (σ : Store) (v : View) (i : ℕ)
    (h : i < prodShape (prepared_view ish v).shape) :
    readV (prepare_input ish σ v).1 (prepare_input ish σ v).2 i =
      FV.divQ (readV σ (prepared_view ish v) i) 4 := by
  rw [show prepare_input ish σ v =
        npCopy
          (normalize_board (npCopy σ (prepared_view ish v)).1
            (npCopy σ (prepared_view ish v)).2).1
          (normalize_board (npCopy σ (prepared_view ish v)).1
            (npCopy σ (prepared_view ish v)).2).2 from rfl,
    readV_npCopy
      (normalize_board (npCopy σ (prepared_view ish v)).1
        (npCopy σ (prepared_view ish v)).2).1
      (normalize_board (npCopy σ (prepared_view ish v)).1
        (npCopy σ (prepared_view ish v)).2).2 i h,
    readV_normalize_board (npCopy σ (prepared_view ish v)).1
      (npCopy σ (prepared_view ish v)).2 i h,
    readV_npCopy σ (prepared_view ish v) i h]

/-- Shape of the `_prepare_input` output. -/
theorem prepare_input_shape (ish : List ℕ) (σ : Store) (v : View) :
    (prepare_input ish σ v).2.shape = (prepared_view ish v).shape := rfl

/-- Rolling preserves the buffer a view points at. -/
theorem buf_npRollaxis31 (v : View) : (npRollaxis31 v).buf = v.buf := by
  unfold npRollaxis31
  split <;> rfl

/-- The view-level part of `_prepare_input` preserves the buffer. -/
theorem buf_prepared_view (ish : List ℕ) (v : View) :
    (prepared_view ish v).buf = v.buf := by
  unfold prepared_view
  rw [buf_npRollaxis31]
  split <;> rfl

/-- `_prepare_input` writes no existing buffer: every buffer id that was
valid before the call still holds bit-identical contents after it. -/
theorem prepare_input_preserves (ish : List ℕ) (σ : Store) (v : View) (b : ℕ)
    (hb : b < σ.bufs.length) :
    (prepare_input ish σ v).1.bufs.getD b [] = σ.bufs.getD b [] := by
  have L : ∀ (τ : Store) (d : List FV), (τ.push d).bufs.length = τ.bufs.length + 1 :=
    fun τ d => by simp [Store.push]
  simp only [prepare_input, normalize_board, npCopy, npAstype, npDiv4]
  rw [getD_bufs_push _ _ _ (by rw [L, L, L]; omega),
      getD_bufs_push _ _ _ (by rw [L, L]; omega),
      getD_bufs_push _ _ _ (by rw [L]; omega),
      getD_bufs_push _ _ _ hb]

/-- The view-level part of `_prepare_input` on a rank-3 board of shape
`[s, s, n]`: batch-of-one promotion then rolling axis 3 to position 1. -/
theorem prepared_view_rank3 (s n : ℕ) (v : View) (hsh : v.shape = [s, s, n]) :
    prepared_view [s, s, n] v =
      ⟨v.buf, [1, n, s, s],
        fun i => v.map (((i / s / s / n * s + i / s % s) * s + i % s) * n + i / s / s % n)⟩ := by
  unfold prepared_view
  rw [if_pos (by rw [hsh]; rfl)]
  rfl

/-- C6: `_prepare_input` on a single rank-3 observation of shape
(board, board, N) promotes it to a batch of one of shape (1, N, board,
board) with the frame-stack axis as channel axis, and every output cell is
the corresponding input cell cast to float and divided by the fixed scalar
4.0. -/
theorem prepare_input_rank3_spec (s n : ℕ) (σ : Store) (v : View)
    (hsh : v.shape = [s, s, n]) :
    (prepare_input [s, s, n] σ v).2.shape = [1, n, s, s] ∧
    ∀ f r c, f < n → r < s → c < s →
      readV (prepare_input [s, s, n] σ v).1 (prepare_input [s, s, n] σ v).2
          ((f * s + r) * s + c) =
        FV.divQ (readV σ v ((r * s + c) * n + f)) 4 := by
  have hpv := prepared_view_rank3 s n v hsh
  constructor
  · rw [prepare_input_shape, hpv]
  · intro f r c hf hr hc
    have hs : 0 < s := lt_of_le_of_lt (Nat.zero_le c) hc
    have h1 : ((f * s + r) * s + c) % s = c := by
      rw [Nat.mul_comm (f * s + r) s, Nat.mul_add_mod, Nat.mod_eq_of_lt hc]
    have h2 : ((f * s + r) * s + c) / s = f * s + r := by
      rw [Nat.mul_comm (f * s + r) s, Nat.mul_add_div hs, Nat.div_eq_of_lt hc, Nat.add_zero]
    have h3 : (f * s + r) % s = r := by
      rw [Nat.mul_comm f s, Nat.mul_add_mod, Nat.mod_eq_of_lt hr]
    have h4 : (f * s + r) / s = f := by
      rw [Nat.mul_comm f s, Nat.mul_add_div hs, Nat.div_eq_of_lt hr, Nat.add_zero]
    have hidx : (f * s + r) * s + c < prodShape (prepared_view [s, s, n] v).shape := by
      rw [hpv]
      show (f * s + r) * s + c < prodShape [1, n, s, s]
      have hub : f * s + r + 1 ≤ n * s := by
        have h5 : (f + 1) * s ≤ n * s := Nat.mul_le_mul_right s hf
        rw [Nat.add_mul, Nat.one_mul] at h5
        omega
      calc (f * s + r) * s + c < (f * s + r) * s + s := by omega
        _ = (f * s + r + 1) * s := by ring
        _ ≤ n * s * s := Nat.mul_le_mul_right s hub
        _ = prodShape [1, n, s, s] := by unfold prodShape; simp [List.foldl]
    rw [readV_prepare_input _ _ _ _ hidx]
    congr 1
    rw [hpv]
    unfold readV
    simp only [h1, h2, h3, h4, Nat.mod_eq_of_lt hf, Nat.div_eq_of_lt hf,
      Nat.zero_mul, Nat.zero_add]

/-- Witness for `prepare_input_rank3_spec` at board size 1, one frame,
a one-cell board holding 2. -/
theorem prepare_input_rank3_spec_witness :
    (View.mk 0 [1, 1, 1] (fun i => i)).shape = [1, 1, 1] ∧
    ((prepare_input [1, 1, 1] ⟨[[FV.fin 2]]⟩ ⟨0, [1, 1, 1], fun i => i⟩).2.shape
        = [1, 1, 1, 1] ∧
     ∀ f r c, f < 1 → r < 1 → c < 1 →
       readV (prepare_input [1, 1, 1] ⟨[[FV.fin 2]]⟩ ⟨0, [1, 1, 1], fun i => i⟩).1
           (prepare_input [1, 1, 1] ⟨[[FV.fin 2]]⟩ ⟨0, [1, 1, 1], fun i => i⟩).2
           ((f * 1 + r) * 1 + c) =
         FV.divQ (readV ⟨[[FV.fin 2]]⟩ ⟨0, [1, 1, 1], fun i => i⟩ ((r * 1 + c) * 1 + f)) 4) :=
  ⟨rfl, prepare_input_rank3_spec 1 1 ⟨[[FV.fin 2]]⟩ ⟨0, [1, 1, 1], fun i => i⟩ rfl⟩

/-- C7: `_prepare_input` never mutates the caller's array (no existing
buffer changes), and calling it twice on the same input yields
bit-identical output arrays. -/
theorem prepare_input_pure (ish : List ℕ) (σ : Store) (v : View) :
    (∀ b, b < σ.bufs.length →
      (prepare_input ish σ v).1.bufs.getD b [] = σ.bufs.getD b []) ∧
    (v.buf < σ.bufs.length →
      materialize (prepare_input ish (prepare_input ish σ v).1 v).1
          (prepare_input ish (prepare_input ish σ v).1 v).2 =
        materialize (prepare_input ish σ v).1 (prepare_input ish σ v).2) := by
  refine ⟨fun b hb => prepare_input_preserves ish σ v b hb, fun hv => ?_⟩
  unfold materialize
  rw [prepare_input_shape, prepare_input_shape]
  refine List.map_congr_left ?_
  intro i hi
  have hik : i < prodShape (prepared_view ish v).shape := List.mem_range.mp hi
  rw [readV_prepare_input _ _ _ _ hik, readV_prepare_input _ _ _ _ hik]
  congr 1
  unfold readV Store.read
  rw [buf_prepared_view]
  rw [prepare_input_preserves ish σ v v.buf hv]

/-- Witness for `prepare_input_pure` on a one-buffer store. -/
theorem prepare_input_pure_witness :
    ((0 : ℕ) < (Store.mk [[FV.fin 2]]).bufs.length ∧
     (View.mk 0 [1, 1, 1] (fun i => i)).buf < (Store.mk [[FV.fin 2]]).bufs.length) ∧
    (prepare_input [1, 1, 1] ⟨[[FV.fin 2]]⟩ ⟨0, [1, 1, 1], fun i => i⟩).1.bufs.getD 0 []
        = (Store.mk [[FV.fin 2]]).bufs.getD 0 [] ∧
    materialize
        (prepare_input [1, 1, 1]
          (prepare_input [1, 1, 1] ⟨[[FV.fin 2]]⟩ ⟨0, [1, 1, 1], fun i => i⟩).1
          ⟨0, [1, 1, 1], fun i => i⟩).1
        (prepare_input [1, 1, 1]
          (prepare_input [1, 1, 1] ⟨[[FV.fin 2]]⟩ ⟨0, [1, 1, 1], fun i => i⟩).1
          ⟨0, [1, 1, 1], fun i => i⟩).2 =
      materialize (prepare_input [1, 1, 1] ⟨[[FV.fin 2]]⟩ ⟨0, [1, 1, 1], fun i => i⟩).1
        (prepare_input [1, 1, 1] ⟨[[FV.fin 2]]⟩ ⟨0, [1, 1, 1], fun i => i⟩).2 :=
  ⟨⟨by decide, by decide⟩,
   (prepare_input_pure [1, 1, 1] ⟨[[FV.fin 2]]⟩ ⟨0, [1, 1, 1], fun i => i⟩).1 0 (by decide),
   (prepare_input_pure [1, 1, 1] ⟨[[FV.fin 2]]⟩ ⟨0, [1, 1, 1], fun i => i⟩).2 (by decide)⟩

/-- Bumping a store with a push increments the buffer count. -/
theorem push_bufs_len (σ : Store) (d : List FV) :
    (σ.push d).bufs.length = σ.bufs.length + 1 := by simp [Store.push]

/-- `_prepare_input` allocates exactly four buffers. -/
theorem prepare_input_bufs_len (ish : List ℕ) (σ : Store) (v : View) :
    (prepare_input ish σ v).1.bufs.length = σ.bufs.length + 4 := by
  simp only [prepare_input, normalize_board, npCopy, npAstype, npDiv4]
  rw [push_bufs_len, push_bufs_len, push_bufs_len, push_bufs_len]

/-- C1 (code bug): `update_target_net` rebinds entries of the local dict
returned by `state_dict()` and never writes the target network's
parameter tensors — it is the identity on the agent state, in both agent
classes; after a call on an agent whose live and target parameters
differ, the target's parameters still differ from the live model's
instead of equalling them. -/
theorem update_target_net_is_noop :
    (∀ ag : DQNState, update_target_net ag = ag) ∧
    (∀ ag : AACState, AAC_update_target_net ag = ag) ∧
    (paramTensors
        (update_target_net
          ⟨⟨[[FV.fin 1], [FV.fin 2]]⟩, ⟨[("w", 0)]⟩, ⟨[("w", 1)]⟩, true, [1]⟩).store
        (update_target_net
          ⟨⟨[[FV.fin 1], [FV.fin 2]]⟩, ⟨[("w", 0)]⟩, ⟨[("w", 1)]⟩, true, [1]⟩).target_net ≠
      paramTensors
        (update_target_net
          ⟨⟨[[FV.fin 1], [FV.fin 2]]⟩, ⟨[("w", 0)]⟩, ⟨[("w", 1)]⟩, true, [1]⟩).store
        (update_target_net
          ⟨⟨[[FV.fin 1], [FV.fin 2]]⟩, ⟨[("w", 0)]⟩, ⟨[("w", 1)]⟩, true, [1]⟩).model) := by
  refine ⟨fun ag => ?_, fun ag => ?_, ?_⟩
  · unfold update_target_net
    split <;> rfl
  · unfold AAC_update_target_net
    split <;> rfl
  · decide

/-- C2 (code bug): the loss in `train_agent` is built from
`torch.Tensor(...)`-wrapped, graph-detached tensors, so `loss.backward()`
raises a RuntimeError for every input: the call returns no loss and no
parameter tensor changes.  Moreover `reset_models` (with the target flag
on) leaves `self.optimizer` bound to the TARGET network's parameter
tensors, not the live model's, so even a successful step would update the
target net. -/
theorem train_agent_backward_raises :
    (∀ net upd gamma ish (ag : DQNState) s next_s a r done legal rc,
      (train_agent net upd gamma ish ag s next_s a r done legal rc).1 =
        Except.error
          "element 0 of tensors does not require grad and does not have a grad_fn" ∧
      ∀ b, b < ag.store.bufs.length →
        (train_agent net upd gamma ish ag s next_s a r done legal rc).2.store.bufs.getD b []
          = ag.store.bufs.getD b []) ∧
    ((reset_models ⟨[]⟩ [("w", [FV.fin 1])] [("w", [FV.fin 2])] true).optimizerParams =
        (reset_models ⟨[]⟩ [("w", [FV.fin 1])] [("w", [FV.fin 2])] true).target_net.params.map
          (fun kv => kv.2) ∧
      (reset_models ⟨[]⟩ [("w", [FV.fin 1])] [("w", [FV.fin 2])] true).model.params.map
          (fun kv => kv.2) = [0] ∧
      (reset_models ⟨[]⟩ [("w", [FV.fin 1])] [("w", [FV.fin 2])] true).optimizerParams = [1]) := by
  refine ⟨fun net upd gamma ish ag s next_s a r done legal rc => ⟨rfl, ?_⟩, by decide⟩
  intro b hb
  have hst : (train_agent net upd gamma ish ag s next_s a r done legal rc).2.store =
      (prepare_input ish (prepare_input ish (prepare_input ish ag.store next_s).1 s).1 s).1 :=
    rfl
  rw [hst]
  have hb1 : b < (prepare_input ish ag.store next_s).1.bufs.length := by
    rw [prepare_input_bufs_len]
    omega
  have hb2 : b < (prepare_input ish (prepare_input ish ag.store next_s).1 s).1.bufs.length := by
    rw [prepare_input_bufs_len, prepare_input_bufs_len]
    omega
  rw [prepare_input_preserves _ _ _ _ hb2, prepare_input_preserves _ _ _ _ hb1,
    prepare_input_preserves _ _ _ _ hb]

/-- Witness for `train_agent_backward_raises` on a concrete one-parameter
agent and a trivial network. -/
theorem train_agent_backward_raises_witness :
    ((train_agent (fun _ _ => []) (fun _ t => t) 1 [1, 1, 1]
        ⟨⟨[[FV.fin 1]]⟩, ⟨[("w", 0)]⟩, ⟨[("w", 0)]⟩, true, [0]⟩
        ⟨0, [1, 1, 1], fun i => i⟩ ⟨0, [1, 1, 1], fun i => i⟩ [] [] [] [] false).1 =
      Except.error
        "element 0 of tensors does not require grad and does not have a grad_fn") ∧
    ((0 : ℕ) <
        (DQNState.mk ⟨[[FV.fin 1]]⟩ ⟨[("w", 0)]⟩ ⟨[("w", 0)]⟩ true [0]).store.bufs.length ∧
     (train_agent (fun _ _ => []) (fun _ t => t) 1 [1, 1, 1]
        ⟨⟨[[FV.fin 1]]⟩, ⟨[("w", 0)]⟩, ⟨[("w", 0)]⟩, true, [0]⟩
        ⟨0, [1, 1, 1], fun i => i⟩ ⟨0, [1, 1, 1], fun i => i⟩ [] [] [] [] false).2.store.bufs.getD 0 []
       = (DQNState.mk ⟨[[FV.fin 1]]⟩ ⟨[("w", 0)]⟩ ⟨[("w", 0)]⟩ true [0]).store.bufs.getD 0 []) :=
  ⟨(train_agent_backward_raises.1 (fun _ _ => []) (fun _ t => t) 1 [1, 1, 1]
      ⟨⟨[[FV.fin 1]]⟩, ⟨[("w", 0)]⟩, ⟨[("w", 0)]⟩, true, [0]⟩
      ⟨0, [1, 1, 1], fun i => i⟩ ⟨0, [1, 1, 1], fun i => i⟩ [] [] [] [] false).1,
   by decide,
   (train_agent_backward_raises.1 (fun _ _ => []) (fun _ t => t) 1 [1, 1, 1]
      ⟨⟨[[FV.fin 1]]⟩, ⟨[("w", 0)]⟩, ⟨[("w", 0)]⟩, true, [0]⟩
      ⟨0, [1, 1, 1], fun i => i⟩ ⟨0, [1, 1, 1], fun i => i⟩ [] [] [] [] false).2 0 (by decide)⟩

/-- C9 counterexample: with the live model's file present but a later
expected file absent, `load_model` reports the FileNotFoundError but has
already overwritten the live model's parameter tensor with the file's
contents — the prior in-memory parameters are not left intact.  This
happens in both classes: for `DeepQLearningAgent` when the `_target` file
is missing, and for `AdvantageActorCriticAgent` already when the `_full`
file is missing. -/
theorem load_model_partial_overwrite :
    ((load_model [("m/model_0000.pt", [("w", [FV.fin 7])])]
        ⟨⟨[[FV.fin 1], [FV.fin 2]]⟩, ⟨[("w", 0)]⟩, ⟨[("w", 1)]⟩, true, [1]⟩ "m" none).1
      = some "FileNotFoundError" ∧
     (load_model [("m/model_0000.pt", [("w", [FV.fin 7])])]
        ⟨⟨[[FV.fin 1], [FV.fin 2]]⟩, ⟨[("w", 0)]⟩, ⟨[("w", 1)]⟩, true, [1]⟩ "m" none).2.store.bufs.getD 0 []
      ≠ (DQNState.mk ⟨[[FV.fin 1], [FV.fin 2]]⟩ ⟨[("w", 0)]⟩ ⟨[("w", 1)]⟩ true
          [1]).store.bufs.getD 0 []) ∧
    ((AAC_load_model [("m/model_0000.pt", [("w", [FV.fin 7])])]
        ⟨⟨[[FV.fin 1], [FV.fin 2]]⟩, ⟨[("w", 0)]⟩, ⟨[("w", 1)]⟩, ⟨[("w", 1)]⟩, ⟨[("w", 1)]⟩, false⟩
        "m" none).1
      = some "FileNotFoundError" ∧
     (AAC_load_model [("m/model_0000.pt", [("w", [FV.fin 7])])]
        ⟨⟨[[FV.fin 1], [FV.fin 2]]⟩, ⟨[("w", 0)]⟩, ⟨[("w", 1)]⟩, ⟨[("w", 1)]⟩, ⟨[("w", 1)]⟩, false⟩
        "m" none).2.store.bufs.getD 0 []
      ≠ (AACState.mk ⟨[[FV.fin 1], [FV.fin 2]]⟩ ⟨[("w", 0)]⟩ ⟨[("w", 1)]⟩ ⟨[("w", 1)]⟩
          ⟨[("w", 1)]⟩ false).store.bufs.getD 0 []) := by
  decide

/-- C9 (amended): in both agent classes, when the first expected file
(the live model's) is absent, `load_model` fails with the error before
mutating anything, leaving all prior parameters intact; when the live
model's file is present but a later expected file is absent (the
`_target` file for `DeepQLearningAgent`, or already the `_full` file for
`AdvantageActorCriticAgent`), the error is still reported to the caller,
but the live model's parameters have already been overwritten with the
loaded contents (partial load). -/
theorem load_model_failure_behavior :
    (∀ (fs : FileSystem) (ag : DQNState) (file_path : String) (iteration : Option ℕ),
      (torch_load fs (file_path ++ "/model_" ++ fmt04 (iteration.getD 0) ++ ".pt") = none →
        load_model fs ag file_path iteration = (some "FileNotFoundError", ag)) ∧
      (∀ sd,
        torch_load fs (file_path ++ "/model_" ++ fmt04 (iteration.getD 0) ++ ".pt") = some sd →
        ag.use_target_net = true →
        torch_load fs (file_path ++ "/model_" ++ fmt04 (iteration.getD 0) ++ "_target.pt")
          = none →
        load_model fs ag file_path iteration =
          (some "FileNotFoundError",
           { ag with store := load_state_dict ag.store ag.model sd }))) ∧
    (∀ (fs : FileSystem) (ag : AACState) (file_path : String) (iteration : Option ℕ),
      (torch_load fs (file_path ++ "/model_" ++ fmt04 (iteration.getD 0) ++ ".pt") = none →
        AAC_load_model fs ag file_path iteration = (some "FileNotFoundError", ag)) ∧
      (∀ sd,
        torch_load fs (file_path ++ "/model_" ++ fmt04 (iteration.getD 0) ++ ".pt") = some sd →
        torch_load fs (file_path ++ "/model_" ++ fmt04 (iteration.getD 0) ++ "_full.pt")
          = none →
        AAC_load_model fs ag file_path iteration =
          (some "FileNotFoundError",
           { ag with store := load_state_dict ag.store ag.model sd }))) := by
  refine ⟨fun fs ag file_path iteration => ⟨?_, ?_⟩,
    fun fs ag file_path iteration => ⟨?_, ?_⟩⟩
  · intro h
    unfold load_model
    simp only [h]
  · intro sd h1 ht h2
    unfold load_model
    simp only [h1, h2, ht, if_pos]
  · intro h
    unfold AAC_load_model
    simp only [h]
  · intro sd h1 h2
    unfold AAC_load_model
    simp only [h1, h2]

/-- Witness for `load_model_failure_behavior` on an empty file system, for
one agent of each class. -/
theorem load_model_failure_behavior_witness :
    torch_load [] ("m" ++ "/model_" ++ fmt04 ((none : Option ℕ).getD 0) ++ ".pt") = none ∧
    load_model [] ⟨⟨[[FV.fin 1]]⟩, ⟨[("w", 0)]⟩, ⟨[("w", 0)]⟩, false, [0]⟩ "m" none =
      (some "FileNotFoundError", ⟨⟨[[FV.fin 1]]⟩, ⟨[("w", 0)]⟩, ⟨[("w", 0)]⟩, false, [0]⟩) ∧
    AAC_load_model []
        ⟨⟨[[FV.fin 1]]⟩, ⟨[("w", 0)]⟩, ⟨[("w", 0)]⟩, ⟨[("w", 0)]⟩, ⟨[("w", 0)]⟩, false⟩
        "m" none =
      (some "FileNotFoundError",
       ⟨⟨[[FV.fin 1]]⟩, ⟨[("w", 0)]⟩, ⟨[("w", 0)]⟩, ⟨[("w", 0)]⟩, ⟨[("w", 0)]⟩, false⟩) :=
  ⟨rfl,
   (load_model_failure_behavior.1 []
      ⟨⟨[[FV.fin 1]]⟩, ⟨[("w", 0)]⟩, ⟨[("w", 0)]⟩, false, [0]⟩ "m" none).1 rfl,
   (load_model_failure_behavior.2 []
      ⟨⟨[[FV.fin 1]]⟩, ⟨[("w", 0)]⟩, ⟨[("w", 0)]⟩, ⟨[("w", 0)]⟩, ⟨[("w", 0)]⟩, false⟩
      "m" none).1 rfl⟩

/-- Sum of a constant-shifted list. -/
theorem sum_map_sub_const (l : List ℝ) (c : ℝ) :
    (l.map (fun x => x - c)).sum = l.sum - l.length * c := by
  induction l with
  | nil => simp
  | cons a t ih =>
    simp only [List.map_cons, List.sum_cons, ih, List.length_cons]
    push_cast
    ring

/-- Sum of a list divided elementwise by a constant. -/
theorem sum_map_div_const (l : List ℝ) (c : ℝ) :
    (l.map (fun x => x / c)).sum = l.sum / c := by
  induction l with
  | nil => simp
  | cons a t ih =>
    simp only [List.map_cons, List.sum_cons, ih]
    ring

/-- The equal-to-head indicator sum is at most the length. -/
theorem indicator_sum_le (l : List ℚ) (c : ℚ) :
    (l.map (fun x => if x = c then (1 : ℕ) else 0)).sum ≤ l.length := by
  induction l with
  | nil => simp
  | cons a t ih =>
    simp only [List.map_cons, List.sum_cons, List.length_cons]
    by_cases ha : a = c <;> simp only [ha, if_pos, if_neg, reduceIte] <;> omega

/-- The guard `(r == r[0][0]).sum() == r.shape[0]` of line 771 holds
exactly when every entry equals the first one. -/
theorem guard_iff_all_eq (r : List ℚ) :
    ((r.map (fun x => if x = r.headI then (1 : ℕ) else 0)).sum = r.length) ↔
      ∀ x ∈ r, x = r.headI := by
  suffices h : ∀ (l : List ℚ) (c : ℚ),
      ((l.map (fun x => if x = c then (1 : ℕ) else 0)).sum = l.length) ↔ ∀ x ∈ l, x = c from
    h r r.headI
  intro l c
  induction l with
  | nil => simp
  | cons a t ih =>
    simp only [List.map_cons, List.sum_cons, List.length_cons, List.mem_cons]
    by_cases ha : a = c
    · rw [if_pos ha]
      constructor
      · intro hsum x hx
        rcases hx with rfl | hx
        · exact ha
        · exact (ih.mp (by omega)) x hx
      · intro hall
        have := ih.mpr (fun x hx => hall x (Or.inr hx))
        omega
    · rw [if_neg ha]
      constructor
      · intro hsum
        exfalso
        have := indicator_sum_le t c
        omega
      · intro hall
        exact absurd (hall a (Or.inl rfl)) ha

/-- The first entry of a nonempty list is an entry. -/
theorem headI_mem_list (r : List ℚ) (h : r ≠ []) : r.headI ∈ r := by
  cases r with
  | nil => exact absurd rfl h
  | cons a t => exact List.mem_cons_self _ _

/-- Population variance of a list of reals is nonnegative. -/
theorem listVar_nonneg (l : List ℝ) : 0 ≤ listVar l := by
  unfold listVar
  apply div_nonneg
  · apply List.sum_nonneg
    intro y hy
    obtain ⟨x, hx, rfl⟩ := List.mem_map.mp hy
    positivity
  · positivity

/-- A list holding two different values has positive population variance. -/
theorem listVar_pos_of_ne (l : List ℝ) (x y : ℝ) (hx : x ∈ l) (hy : y ∈ l)
    (hxy : x ≠ y) : 0 < listVar l := by
  rcases lt_or_eq_of_le (listVar_nonneg l) with h | h
  · exact h
  exfalso
  have hlpos : (0 : ℝ) < l.length := by
    have hl : l ≠ [] := by rintro rfl; exact List.not_mem_nil x hx
    exact_mod_cast List.length_pos.mpr hl
  have hsum0 : (l.map (fun z => (z - listMean l) ^ 2)).sum = 0 := by
    have h2 : listVar l = 0 := h.symm
    unfold listVar at h2
    rcases div_eq_zero_iff.mp h2 with h3 | h3
    · exact h3
    · exact absurd h3 (ne_of_gt hlpos)
  have hall0 : ∀ z ∈ l, z = listMean l := by
    intro z hz
    have h4 := List.all_zero_of_le_zero_le_of_sum_eq_zero
      (fun w hw => by obtain ⟨u, hu, rfl⟩ := List.mem_map.mp hw; positivity)
      hsum0 (List.mem_map_of_mem _ hz)
    have h5 : z - listMean l = 0 := sq_eq_zero_iff.mp h4
    linarith
  exact hxy ((hall0 x hx).trans (hall0 y hy).symm)

/-- Normalizing a nonempty list with positive variance by subtracting its
mean and dividing by its standard deviation yields zero mean and unit
population variance. -/
theorem normalized_mean_var (l : List ℝ) (hl : (0 : ℝ) < l.length)
    (hv : 0 < listVar l) :
    listMean (l.map (fun x => (x - listMean l) / npStd l)) = 0 ∧
    listVar (l.map (fun x => (x - listMean l) / npStd l)) = 1 := by
  have hσpos : 0 < npStd l := Real.sqrt_pos.mpr hv
  have hσsq : npStd l ^ 2 = listVar l := Real.sq_sqrt (le_of_lt hv)
  have hvne : listVar l ≠ 0 := ne_of_gt hv
  have hlne : (l.length : ℝ) ≠ 0 := ne_of_gt hl
  have hsum : l.sum = l.length * listMean l := by
    unfold listMean
    field_simp
  have hXsum : (l.map (fun x => (x - listMean l) / npStd l)).sum = 0 := by
    rw [show l.map (fun x => (x - listMean l) / npStd l) =
          (l.map (fun x => x - listMean l)).map (fun x => x / npStd l) from
        (List.map_map (fun x => x / npStd l) (fun x => x - listMean l) l).symm,
      sum_map_div_const, sum_map_sub_const, hsum]
    simp
  have hmean : listMean (l.map (fun x => (x - listMean l) / npStd l)) = 0 := by
    show (l.map (fun x => (x - listMean l) / npStd l)).sum /
        ((l.map (fun x => (x - listMean l) / npStd l)).length : ℝ) = 0
    rw [hXsum]
    simp
  refine ⟨hmean, ?_⟩
  unfold listVar
  rw [hmean]
  have hmaps : (l.map (fun x => (x - listMean l) / npStd l)).map (fun y => (y - 0) ^ 2) =
      (l.map (fun x => (x - listMean l) ^ 2)).map (fun y => y / npStd l ^ 2) := by
    rw [List.map_map, List.map_map]
    refine List.map_congr_left (fun x _ => ?_)
    show ((x - listMean l) / npStd l - 0) ^ 2 = (x - listMean l) ^ 2 / npStd l ^ 2
    rw [sub_zero, div_pow]
  rw [hmaps, sum_map_div_const]
  have hvs : (l.map (fun x => (x - listMean l) ^ 2)).sum = listVar l * l.length := by
    unfold listVar
    field_simp
  rw [hvs, hσsq, List.length_map]
  field_simp

/-- C8: with reward normalization enabled, a batch whose rewards are all
equal is sent to all zeros by the zero-variance guard (`r -= r`), and a
batch with unequal rewards is normalized to zero mean and unit population
variance. -/
theorem normalize_rewards_spec (r : List ℚ) (hne : r ≠ []) :
    ((∀ x ∈ r, x = r.headI) → normalize_rewards r = r.map (fun _ => (0 : ℝ))) ∧
    ((∃ x ∈ r, x ≠ r.headI) →
      listMean (normalize_rewards r) = 0 ∧ listVar (normalize_rewards r) = 1) := by
  constructor
  · intro hall
    unfold normalize_rewards
    rw [if_pos ((guard_iff_all_eq r).mpr hall)]
    exact List.map_congr_left (fun x _ => sub_self _)
  · rintro ⟨x0, hx0, hx0ne⟩
    have hguard : ¬ ((r.map (fun x => if x = r.headI then (1 : ℕ) else 0)).sum = r.length) :=
      fun h => hx0ne ((guard_iff_all_eq r).mp h x0 hx0)
    unfold normalize_rewards
    rw [if_neg hguard]
    have hlpos : (0 : ℝ) < ((r.map (fun x : ℚ => (x : ℝ))).length : ℝ) := by
      rw [List.length_map]
      exact_mod_cast List.length_pos.mpr hne
    have hvpos : 0 < listVar (r.map (fun x : ℚ => (x : ℝ))) := by
      refine listVar_pos_of_ne _ ((x0 : ℝ)) ((r.headI : ℝ)) ?_ ?_ ?_
      · exact List.mem_map_of_mem _ hx0
      · exact List.mem_map_of_mem _ (headI_mem_list r hne)
      · exact fun h => hx0ne (by exact_mod_cast h)
    exact normalized_mean_var _ hlpos hvpos

/-- Witness for `normalize_rewards_spec` at the batch `[0, 2]`. -/
theorem normalize_rewards_spec_witness :
    ([(0 : ℚ), 2] ≠ []) ∧
    ((∀ x ∈ [(0 : ℚ), 2], x = ([(0 : ℚ), 2]).headI) →
      normalize_rewards [0, 2] = ([(0 : ℚ), 2]).map (fun _ => (0 : ℝ))) ∧
    ((∃ x ∈ [(0 : ℚ), 2], x ≠ ([(0 : ℚ), 2]).headI) →
      listMean (normalize_rewards [0, 2]) = 0 ∧ listVar (normalize_rewards [0, 2]) = 1) :=
  ⟨by decide,
   (normalize_rewards_spec [0, 2] (by decide)).1,
   (normalize_rewards_spec [0, 2] (by decide)).2⟩

/-- C10: on a board of size `S ≥ 1`, `_point_to_row_col` and
`_row_col_to_point` are mutually inverse: converting `(row, col)` with
`row, col < S` to a point and back returns `(row, col)`, and converting a
point `p < S²` to `(row, col)` and back returns `p`. -/
theorem point_row_col_inverse (S row col p : ℕ)
    (hS : 1 ≤ S) (hrow : row < S) (hcol : col < S) (hp : p < S * S) :
    point_to_row_col S (row_col_to_point S row col) = (row, col) ∧
    row_col_to_point S (point_to_row_col S p).1 (point_to_row_col S p).2 = p := by
  constructor
  · have h1 : (row * S + col) / S = row := by
      rw [Nat.mul_comm row S, Nat.mul_add_div (by omega)]
      simp [Nat.div_eq_of_lt hcol]
    have h2 : (row * S + col) % S = col := by
      rw [Nat.mul_comm row S, Nat.mul_add_mod]
      exact Nat.mod_eq_of_lt hcol
    simp [point_to_row_col, row_col_to_point, h1, h2]
  · show p / S * S + p % S = p
    rw [Nat.mul_comm (p / S) S]
    exact Nat.div_add_mod p S

/-- Witness for `point_row_col_inverse` at `S = 7`, `(row, col) = (3, 5)`,
`p = 26`. -/
theorem point_row_col_inverse_witness :
    (1 ≤ 7 ∧ 3 < 7 ∧ 5 < 7 ∧ 26 < 7 * 7) ∧
    (point_to_row_col 7 (row_col_to_point 7 3 5) = (3, 5) ∧
     row_col_to_point 7 (point_to_row_col 7 26).1 (point_to_row_col 7 26).2 = 26) :=
  ⟨by decide,
   point_row_col_inverse 7 3 5 26 (by decide) (by decide) (by decide) (by decide)⟩

/-- C3 counterexample: for a sampled terminal transition (`done = 1`) whose
legal-move mask is all zero (permitted by the data-model invariant exactly
when the episode has terminated), the computed discounted-reward target is
NaN (`-inf * 0`), not the immediate reward: with `gamma = 0.99`, reward 1
and four illegal next-state actions the code computes NaN, not 1. -/
theorem terminal_empty_mask_gives_nan :
    discountedReward (99/100) 1 [0, 0, 0, 0] [0, 0, 0, 0] 1 = FV.nan ∧
    discountedReward (99/100) 1 [0, 0, 0, 0] [0, 0, 0, 0] 1 ≠ FV.fin 1 := by
  have hmax : maskedRowMax [0, 0, 0, 0] [0, 0, 0, 0] = FV.ninf := by decide
  have h1 : FV.mul (FV.fin (99/100)) FV.ninf = FV.ninf := by
    simp only [FV.mul]
    norm_num
  have h2 : FV.mul FV.ninf (FV.fin 0) = FV.nan := by
    simp only [FV.mul]
    norm_num
  refine ⟨?_, ?_⟩ <;>
    simp [discountedReward, hmax, h1, h2, FV.add]

/-- C3 (amended): for every sampled transition with `done = 1` whose
legal-move mask marks at least one next-state action legal, the computed
discounted-reward target equals the immediate reward exactly, independent
of `gamma` and of the next-state Q-values. -/
theorem terminal_target_eq_reward (gamma r : ℚ) (outs legal : List ℚ)
    (hone : legalQ (outs.zip legal) ≠ []) :
    discountedReward gamma r outs legal 1 = FV.fin r := by
  have hzip : outs.zip legal ≠ [] := by
    intro h
    apply hone
    rw [h]
    rfl
  obtain ⟨p, t, hpt⟩ := List.exists_cons_of_ne_nil hzip
  unfold discountedReward maskedRowMax whereLegal
  rw [hpt, npMaxRow_maskRow]
  rcases hq : legalQ (p :: t) with _ | ⟨q, qs⟩
  · rw [← hpt] at hq; exact absurd hq hone
  · show FV.add (FV.fin r)
      (FV.mul (FV.mul (FV.fin gamma) (FV.fin (qs.foldl max q))) (FV.fin (1 - 1))) = FV.fin r
    have h0 : (1 : ℚ) - 1 = 0 := by norm_num
    rw [h0]
    show FV.fin (r + gamma * qs.foldl max q * 0) = FV.fin r
    norm_num

/-- Witness for `terminal_target_eq_reward` at `gamma = 0.99`, `r = 2`,
next-state outputs `[5, 7]`, mask `[1, 0]`. -/
theorem terminal_target_eq_reward_witness :
    legalQ (([5, 7] : List ℚ).zip [1, 0]) ≠ [] ∧
    discountedReward (99/100) 2 [5, 7] [1, 0] 1 = FV.fin 2 :=
  ⟨by decide, terminal_target_eq_reward (99/100) 2 [5, 7] [1, 0] (by decide)⟩

/-- C4: in the bootstrap computation, for every row whose legal-move mask
has at least one one and at least one zero, the per-row maximum of
`np.where(legal == 1, next_q, -inf)` is attained at a legal action, bounds
every legal action's value, and never equals the value of an illegal
action that strictly dominates all legal values. -/
theorem bootstrap_masking_never_selects_illegal (outs legal : List ℚ)
    (hlen : outs.length = legal.length)
    (hone : (1 : ℚ) ∈ legal)
    (hzero : ∃ x ∈ legal, x ≠ 1) :
    ∃ j, ∃ hj1 : j < outs.length, ∃ hj2 : j < legal.length,
      legal.get ⟨j, hj2⟩ = 1 ∧
      maskedRowMax outs legal = FV.fin (outs.get ⟨j, hj1⟩) ∧
      (∀ k, ∀ hk1 : k < outs.length, ∀ hk2 : k < legal.length,
        legal.get ⟨k, hk2⟩ = 1 → outs.get ⟨k, hk1⟩ ≤ outs.get ⟨j, hj1⟩) ∧
      (∀ k, ∀ hk1 : k < outs.length, ∀ hk2 : k < legal.length,
        legal.get ⟨k, hk2⟩ ≠ 1 →
        (∀ i, ∀ hi1 : i < outs.length, ∀ hi2 : i < legal.length,
          legal.get ⟨i, hi2⟩ = 1 → outs.get ⟨i, hi1⟩ < outs.get ⟨k, hk1⟩) →
        maskedRowMax outs legal ≠ FV.fin (outs.get ⟨k, hk1⟩)) := by
  obtain ⟨i0, hleg0⟩ := List.mem_iff_get.mp hone
  have hne : legalQ (outs.zip legal) ≠ [] := by
    have hm0 : outs.get ⟨i0, by omega⟩ ∈ legalQ (outs.zip legal) :=
      (mem_legalQ _ _ _).mpr ⟨i0, by omega, i0.isLt, hleg0, rfl⟩
    intro h
    rw [h] at hm0
    exact List.not_mem_nil _ hm0
  obtain ⟨p, t, hpt⟩ : ∃ p t, outs.zip legal = p :: t := by
    cases hz : outs.zip legal with
    | nil => exact absurd (by rw [hz]; rfl) hne
    | cons p t => exact ⟨p, t, rfl⟩
  have hmax : ∃ m, maskedRowMax outs legal = FV.fin m ∧
      m ∈ legalQ (p :: t) ∧ ∀ x ∈ legalQ (p :: t), x ≤ m := by
    rcases hq : legalQ (p :: t) with _ | ⟨q, qs⟩
    · rw [← hpt] at hq; exact absurd hq hne
    · refine ⟨qs.foldl max q, ?_, ?_, ?_⟩
      · unfold maskedRowMax whereLegal
        rw [hpt, npMaxRow_maskRow, hq]
      · rcases foldl_max_mem qs q with h | h
        · rw [h]; exact List.mem_cons_self _ _
        · exact List.mem_cons_of_mem _ h
      · intro x hx
        rcases List.mem_cons.mp hx with rfl | hx
        · exact (le_foldl_max _ _).1
        · exact (le_foldl_max qs q).2 x hx
  obtain ⟨m, hm, hmem, hub⟩ := hmax
  obtain ⟨j, hj1, hj2, hjleg, hjval⟩ :=
    (mem_legalQ outs legal m).mp (by rw [hpt]; exact hmem)
  refine ⟨j, hj1, hj2, hjleg, by rw [hm, hjval], ?_, ?_⟩
  · intro k hk1 hk2 hkleg
    have hkmem : outs.get ⟨k, hk1⟩ ∈ legalQ (outs.zip legal) :=
      (mem_legalQ _ _ _).mpr ⟨k, hk1, hk2, hkleg, rfl⟩
    rw [hpt] at hkmem
    rw [hjval]
    exact hub _ hkmem
  · intro k hk1 hk2 hkneg hdom heq
    rw [hm] at heq
    injection heq with hmk
    have hlt := hdom j hj1 hj2 hjleg
    rw [hjval] at hlt
    rw [hmk] at hlt
    exact lt_irrefl _ hlt

/-- Witness for `bootstrap_masking_never_selects_illegal` at outputs
`[5, 9]` and mask `[1, 0]`: the illegal action has the larger raw output 9
but the masked maximum is 5. -/
theorem bootstrap_masking_witness :
    (([5, 9] : List ℚ).length = ([1, 0] : List ℚ).length ∧
     (1 : ℚ) ∈ ([1, 0] : List ℚ) ∧ ∃ x ∈ ([1, 0] : List ℚ), x ≠ 1) ∧
    (∃ j, ∃ hj1 : j < ([5, 9] : List ℚ).length, ∃ hj2 : j < ([1, 0] : List ℚ).length,
      ([1, 0] : List ℚ).get ⟨j, hj2⟩ = 1 ∧
      maskedRowMax [5, 9] [1, 0] = FV.fin (([5, 9] : List ℚ).get ⟨j, hj1⟩) ∧
      (∀ k, ∀ hk1 : k < ([5, 9] : List ℚ).length, ∀ hk2 : k < ([1, 0] : List ℚ).length,
        ([1, 0] : List ℚ).get ⟨k, hk2⟩ = 1 →
        ([5, 9] : List ℚ).get ⟨k, hk1⟩ ≤ ([5, 9] : List ℚ).get ⟨j, hj1⟩) ∧
      (∀ k, ∀ hk1 : k < ([5, 9] : List ℚ).length, ∀ hk2 : k < ([1, 0] : List ℚ).length,
        ([1, 0] : List ℚ).get ⟨k, hk2⟩ ≠ 1 →
        (∀ i, ∀ hi1 : i < ([5, 9] : List ℚ).length, ∀ hi2 : i < ([1, 0] : List ℚ).length,
          ([1, 0] : List ℚ).get ⟨i, hi2⟩ = 1 →
          ([5, 9] : List ℚ).get ⟨i, hi1⟩ < ([5, 9] : List ℚ).get ⟨k, hk1⟩) →
        maskedRowMax [5, 9] [1, 0] ≠ FV.fin (([5, 9] : List ℚ).get ⟨k, hk1⟩))) :=
  ⟨⟨rfl, by decide, by decide⟩,
   bootstrap_masking_never_selects_illegal [5, 9] [1, 0] rfl (by decide) (by decide)⟩

/-- C5: with a one-hot action row, the regression target row built by
`target = (1 - a) * target + a * discounted_reward` equals the current
model's Q-value at every non-taken action and the discounted reward at the
taken action's column. -/
theorem target_onehot_overwrite (a q : List ℚ) (d : ℚ) (j : ℕ)
    (hj : j < a.length) (hone : a.get ⟨j, hj⟩ = 1)
    (hzero : ∀ k, ∀ hk : k < a.length, k ≠ j → a.get ⟨k, hk⟩ = 0) :
    ∀ k, ∀ hk1 : k < a.length, ∀ hk2 : k < q.length,
      ∀ hk3 : k < (buildTargetRow a q (FV.fin d)).length,
      (buildTargetRow a q (FV.fin d)).get ⟨k, hk3⟩ =
        if k = j then FV.fin d else FV.fin (q.get ⟨k, hk2⟩) := by
  intro k hk1 hk2 hk3
  have hget : (buildTargetRow a q (FV.fin d)).get ⟨k, hk3⟩ =
      FV.add (FV.mul (FV.fin (1 - a.get ⟨k, hk1⟩)) (FV.fin (q.get ⟨k, hk2⟩)))
        (FV.mul (FV.fin (a.get ⟨k, hk1⟩)) (FV.fin d)) := by
    unfold buildTargetRow
    simp [List.get_eq_getElem, List.getElem_map, List.getElem_zip]
  rw [hget]
  by_cases hkj : k = j
  · subst hkj
    have h1 : a.get ⟨k, hk1⟩ = 1 := hone
    rw [if_pos rfl, h1]
    show FV.fin ((1 - 1) * q.get ⟨k, hk2⟩ + 1 * d) = FV.fin d
    norm_num
  · rw [if_neg hkj, hzero k hk1 hkj]
    show FV.fin ((1 - 0) * q.get ⟨k, hk2⟩ + 0 * d) = FV.fin (q.get ⟨k, hk2⟩)
    norm_num

/-- Witness for `target_onehot_overwrite` at action row `[0, 1, 0]`,
Q-row `[3, 4, 5]`, discounted reward 9, taken action 1. -/
theorem target_onehot_overwrite_witness :
    (1 < ([0, 1, 0] : List ℚ).length ∧ ([0, 1, 0] : List ℚ).get ⟨1, by decide⟩ = 1) ∧
    (∀ k, ∀ hk1 : k < ([0, 1, 0] : List ℚ).length, ∀ hk2 : k < ([3, 4, 5] : List ℚ).length,
      ∀ hk3 : k < (buildTargetRow [0, 1, 0] [3, 4, 5] (FV.fin 9)).length,
      (buildTargetRow [0, 1, 0] [3, 4, 5] (FV.fin 9)).get ⟨k, hk3⟩ =
        if k = 1 then FV.fin 9 else FV.fin (([3, 4, 5] : List ℚ).get ⟨k, hk2⟩)) :=
  ⟨⟨by decide, by decide⟩,
   target_onehot_overwrite [0, 1, 0] [3, 4, 5] 9 1 (by decide) (by decide)
     (by
       intro k hk hkj
       have hk3 : k < 3 := by simpa using hk
       interval_cases k
       · rfl
       · exact absurd rfl hkj
       · rfl)⟩


end Agents
